import Mathlib

/-!
Verification of the telemetry correlation and staleness-management engine of
nv-swaptop.

The definitions below are a shallow embedding of the Rust sources:
  - `src/data/numa.rs`  : `parse_cpulist`, `classify_numa_node`, `parse_numa_maps`
  - `src/data/mod.rs`   : `merge_process_data`
  - `src/app.rs`        : the cache TTL constants, the per-class refresh pattern of
                          `refresh_numa_data` / `refresh_gpu_data`, and
                          `sort_unified_procs`

Machine integers (`u32`, `u64`) are modelled as `Nat`; the parsers reject
values that would overflow the corresponding width, exactly as Rust's
`str::parse::<uN>` does.  Rust's `HashMap` is modelled as an association list
with unique keys; the real `HashMap` iterates in an arbitrary order, and every
theorem proved below is insensitive to that order (set-level statements, or
statements about the output of the final comparison sort on keys that are
distinct in the inputs considered).  Rust `Vec::sort`/`sort_by` is a stable
sort; since the output of a stable sort is uniquely determined by the input
sequence and the comparator, it is embedded as `List.mergeSort` with the
boolean relation `le a b := cmp a b ≠ Greater`.
-/

namespace NvSwaptop

/-! ## Data model (src/data/types.rs) -/

/-- `NumaNodeType` from `src/data/types.rs`. -/
inductive NumaNodeType where
  | Cpu : NumaNodeType
  | GpuHbm (gpu_index : Nat) : NumaNodeType
  | Unknown : NumaNodeType
deriving DecidableEq, Repr

/-- `NumaNode` from `src/data/types.rs`. -/
structure NumaNode where
  id : Nat
  memory_total_kb : Nat
  memory_free_kb : Nat
  cpus : List Nat
  node_type : NumaNodeType
deriving DecidableEq, Repr

/-- `ProcessSwapInfo` from `src/data/types.rs`.  The source stores
`swap_size: f64`; `merge_process_data` consumes it only as `swap_size as u64`,
so the embedding carries that integer value directly. -/
structure ProcessSwapInfo where
  pid : Nat
  name : String
  swap_size : Nat
  last_cpu : Option Int
deriving DecidableEq, Repr

/-- `ProcessNumaInfo` from `src/data/types.rs`; `pages_per_node` is a
`HashMap<u32, u64>`, modelled as an association list with unique keys. -/
structure ProcessNumaInfo where
  pid : Nat
  name : String
  pages_per_node : List (Nat × Nat)
  total_pages : Nat
  cpu_node : Option Nat
deriving DecidableEq, Repr

/-- `GpuProcessInfo` from `src/data/types.rs`. -/
structure GpuProcessInfo where
  pid : Nat
  name : String
  gpu_index : Nat
  gpu_memory_used_kb : Nat
deriving DecidableEq, Repr

/-- `GpuDevice` from `src/data/types.rs` (fields used by the cache layer). -/
structure GpuDevice where
  index : Nat
  name : String
  memory_total_kb : Nat
  memory_used_kb : Nat
  memory_free_kb : Nat
  numa_node_id : Option Nat
  temperature : Option Nat
  pci_bus_id : String
deriving DecidableEq, Repr

/-- `ProcessLocation` from `src/data/types.rs`. -/
inductive ProcessLocation where
  | CpuOnly : ProcessLocation
  | GpuOnly : ProcessLocation
  | CpuAndGpu : ProcessLocation
deriving DecidableEq, Repr

/-- `UnifiedProcessInfo` from `src/data/types.rs`. -/
structure UnifiedProcessInfo where
  pid : Nat
  name : String
  swap_kb : Nat
  numa_node : Option Nat
  gpu_memory_kb : Option Nat
  gpu_index : Option Nat
  location : ProcessLocation
deriving DecidableEq, Repr

/-! ## Association-list model of `HashMap<u32, β>` -/

/-- `HashMap::get`: the value stored at key `k`, if any (keys are unique, so
scanning for the first binding is the map lookup). -/
def alGet {β : Type} : List (Nat × β) → Nat → Option β
  | [], _ => none
  | (k', v') :: rest, k => if k' = k then some v' else alGet rest k

/-- `HashMap::insert` / in-place mutation through `get_mut`: replace the
binding for `k` if present (keeping its position), else add one. -/
def alInsert {β : Type} : List (Nat × β) → Nat → β → List (Nat × β)
  | [], k, v => [(k, v)]
  | (k', v') :: rest, k, v =>
    if k' = k then (k, v) :: rest else (k', v') :: alInsert rest k v

/-- `map.entry(k).or_insert(0) += v` on a `HashMap<u32, u64>`. -/
def alEntryAdd : List (Nat × Nat) → Nat → Nat → List (Nat × Nat)
  | [], k, v => [(k, v)]
  | (k', v') :: rest, k, v =>
    if k' = k then (k', v' + v) :: rest else (k', v') :: alEntryAdd rest k v

/-- `map.get(&k).copied().unwrap_or(0)`. -/
def alGetD (m : List (Nat × Nat)) (k : Nat) : Nat :=
  (alGet m k).getD 0

/-- The keys of the map, in iteration order. -/
def alKeys {β : Type} (m : List (Nat × β)) : List Nat :=
  m.map (·.1)

/-! ## Character-level string utilities

Rust `str` operations used by the parsers, modelled over `List Char`
(UTF-8 byte order on `str` agrees with code-point order, so character-level
comparison and splitting at ASCII separators coincide with the source). -/

/-- Rust `str::trim` (strip leading and trailing whitespace). -/
def trimChars (cs : List Char) : List Char :=
  ((cs.dropWhile Char.isWhitespace).reverse.dropWhile Char.isWhitespace).reverse

/-- Rust `str::split` at every character satisfying `p`, keeping empty
fragments (so splitting the empty text yields one empty fragment). -/
def splitOnPred (p : Char → Bool) : List Char → List (List Char)
  | [] => [[]]
  | c :: cs =>
    match splitOnPred p cs with
    | h :: t => if p c then [] :: h :: t else (c :: h) :: t
    | [] => [[c]]

/-- Rust `str::split_whitespace`: maximal runs of non-whitespace characters. -/
def splitWhitespaceChars (cs : List Char) : List (List Char) :=
  (splitOnPred Char.isWhitespace cs).filter (fun w => !w.isEmpty)

/-- Rust `str::lines`: split at newlines, drop the optional final line
terminator, and strip a trailing carriage return from each line. -/
def linesOf (cs : List Char) : List (List Char) :=
  let ls := splitOnPred (· == '\n') cs
  let ls := match ls.getLast? with
    | some [] => ls.dropLast
    | _ => ls
  ls.map (fun l => match l.getLast? with
    | some '\r' => l.dropLast
    | _ => l)

/-- Value denoted by a run of ASCII digits. -/
def digitsVal (cs : List Char) : Nat :=
  cs.foldl (fun n c => n * 10 + (c.toNat - 48)) 0

/-- Rust `str::parse::<uN>()` for the `width`-bit unsigned type: an optional
leading `+`, then one or more ASCII digits, rejecting overflow. -/
def parseUInt (width : Nat) (cs : List Char) : Option Nat :=
  let ds := match cs with
    | '+' :: rest => rest
    | _ => cs
  if !ds.isEmpty && ds.all Char.isDigit && decide (digitsVal ds < 2 ^ width)
  then some (digitsVal ds)
  else none

/-! ## parse_cpulist (src/data/numa.rs) -/

/-- One comma-separated token of the `parse_cpulist` loop: a token containing
a dash is read as an inclusive range `start..=end` (empty when
`start > end`), otherwise as a single CPU id; tokens that fail to parse
contribute nothing. -/
def cpulistToken (part0 : List Char) : List Nat :=
  let part := trimChars part0
  match part.findIdx? (· == '-') with
  | some dashPos =>
    match parseUInt 32 (part.take dashPos), parseUInt 32 (part.drop (dashPos + 1)) with
    | some start, some stop => List.range' start (stop + 1 - start)
    | _, _ => []
  | none =>
    match parseUInt 32 part with
    | some cpu => [cpu]
    | none => []

/-- The CPU ids pushed by the `parse_cpulist` loop, before the final
`cpus.sort()`; an all-whitespace input returns early with no ids. -/
def cpulistRaw (content : List Char) : List Nat :=
  let trimmed := trimChars content
  if trimmed.isEmpty then []
  else (splitOnPred (· == ',') trimmed).flatMap cpulistToken

/-- `parse_cpulist` from `src/data/numa.rs`: collect the ids of every token,
then `cpus.sort()` (ascending). -/
def parse_cpulist (content : String) : List Nat :=
  (cpulistRaw content.data).mergeSort (fun a b => decide (a ≤ b))

/-! ## classify_numa_node (src/data/numa.rs) -/

/-- `classify_numa_node` from `src/data/numa.rs`: a node with CPUs is `Cpu`;
otherwise a node whose id is mapped by `gpu_map` is `GpuHbm` with the mapped
device index; otherwise `Unknown`. -/
def classify_numa_node (node : NumaNode) (gpu_map : List (Nat × Nat)) : NumaNodeType :=
  if !node.cpus.isEmpty then NumaNodeType.Cpu
  else
    match alGet gpu_map node.id with
    | some gpu_index => NumaNodeType.GpuHbm gpu_index
    | none => NumaNodeType.Unknown

/-! ## parse_numa_maps (src/data/numa.rs) -/

/-- The `N<id>=<pages>` reading of one whitespace-separated token: the text up
to the first `=` must be `N` followed by a `u32`, and the text after it a
`u64`. -/
def numaToken (token : List Char) : Option (Nat × Nat) :=
  match token.findIdx? (· == '=') with
  | some eqPos =>
    match token.take eqPos with
    | 'N' :: keyRest =>
      match parseUInt 32 keyRest, parseUInt 64 (token.drop (eqPos + 1)) with
      | some nodeId, some pages => some (nodeId, pages)
      | _, _ => none
    | _ => none
  | none => none

/-- All `N<id>=<pages>` tokens of the text, across all lines, in order. -/
def numaMapsTokens (content : List Char) : List (Nat × Nat) :=
  (linesOf content).flatMap (fun line => (splitWhitespaceChars line).filterMap numaToken)

/-- The `pages_per_node` accumulator of `parse_numa_maps`: every matching
token adds its page count to its node's entry. -/
def numaPages (content : List Char) : List (Nat × Nat) :=
  (numaMapsTokens content).foldl (fun m t => alEntryAdd m t.1 t.2) []

/-- `parse_numa_maps` from `src/data/numa.rs`: each matching token adds its
page count to its node's entry, and `total_pages` is the sum of the
accumulated per-node values.  (`cpu_node` is filled in later by the caller in
`src/app.rs`.) -/
def parse_numa_maps (content : String) (pid : Nat) (name : String) : ProcessNumaInfo :=
  { pid := pid
    name := name
    pages_per_node := numaPages content.data
    total_pages := ((numaPages content.data).map (·.2)).sum
    cpu_node := none }

/-! ## merge_process_data (src/data/mod.rs) -/

/-- Rust `iter().max_by_key(|(_, v)| **v)`: the maximal entry in iteration
order, the last one winning ties. -/
def maxByVal (entries : List (Nat × Nat)) : Option (Nat × Nat) :=
  entries.foldl
    (fun best e =>
      match best with
      | none => some e
      | some b => if b.2 ≤ e.2 then some e else some b)
    none

/-- The unified record inserted for a swap process in the first loop of
`merge_process_data`: dominant node looked up from the first matching
distribution record, no accelerator evidence, placement `CpuOnly`. -/
def swapUnified (numa_infos : List ProcessNumaInfo) (p : ProcessSwapInfo) :
    UnifiedProcessInfo :=
  { pid := p.pid
    name := p.name
    swap_kb := p.swap_size
    numa_node := (numa_infos.find? (fun n => n.pid == p.pid)).bind
      (fun n => (maxByVal n.pages_per_node).map (·.1))
    gpu_memory_kb := none
    gpu_index := none
    location := ProcessLocation.CpuOnly }

/-- First loop of `merge_process_data`: insert every swap process. -/
def insertSwapProcs (numa_infos : List ProcessNumaInfo)
    (m : List (Nat × UnifiedProcessInfo)) (swap_procs : List ProcessSwapInfo) :
    List (Nat × UnifiedProcessInfo) :=
  swap_procs.foldl (fun m p => alInsert m p.pid (swapUnified numa_infos p)) m

/-- The in-place mutation applied by the second loop of `merge_process_data`
to an entry that already exists: set the GPU fields and promote the placement
to `CpuAndGpu`. -/
def gpuMergedRec (existing : UnifiedProcessInfo) (gp : GpuProcessInfo) :
    UnifiedProcessInfo :=
  { existing with
    gpu_memory_kb := some gp.gpu_memory_used_kb
    gpu_index := some gp.gpu_index
    location := ProcessLocation.CpuAndGpu }

/-- The record inserted by the second loop of `merge_process_data` for a pid
seen only in the GPU process list: zero swap, placement `GpuOnly`. -/
def gpuOnlyRec (gp : GpuProcessInfo) : UnifiedProcessInfo :=
  { pid := gp.pid
    name := gp.name
    swap_kb := 0
    numa_node := none
    gpu_memory_kb := some gp.gpu_memory_used_kb
    gpu_index := some gp.gpu_index
    location := ProcessLocation.GpuOnly }

/-- Body of the second loop of `merge_process_data`: an existing entry gains
the GPU fields and is promoted to `CpuAndGpu`; a new pid is inserted as a
`GpuOnly` record with zero swap. -/
def gpuStep (m : List (Nat × UnifiedProcessInfo)) (gp : GpuProcessInfo) :
    List (Nat × UnifiedProcessInfo) :=
  match alGet m gp.pid with
  | some existing => alInsert m gp.pid (gpuMergedRec existing gp)
  | none => alInsert m gp.pid (gpuOnlyRec gp)

/-- Second loop of `merge_process_data`. -/
def mergeGpuProcs (m : List (Nat × UnifiedProcessInfo))
    (gpu_procs : List GpuProcessInfo) : List (Nat × UnifiedProcessInfo) :=
  gpu_procs.foldl gpuStep m

/-- The ids of the nodes classified `GpuHbm`, as collected by
`merge_process_data`. -/
def gpuHbmNodes (numa_nodes : List NumaNode) : List Nat :=
  (numa_nodes.filter (fun n =>
    match n.node_type with
    | NumaNodeType.GpuHbm _ => true
    | _ => false)).map (·.id)

/-- The exit condition of the inner `for node_id in &gpu_hbm_nodes` loop of
`merge_process_data`: the process has a nonzero page count on some `GpuHbm`
node (the loop breaks at the first such node, so only existence matters). -/
def hbmHit (hbm : List Nat) (info : ProcessNumaInfo) : Bool :=
  hbm.any (fun node_id => decide (0 < alGetD info.pages_per_node node_id))

/-- The promotion applied by the HBM-migration check of
`merge_process_data`: the placement becomes `CpuAndGpu`, all other fields are
untouched. -/
def promoteLoc (r : UnifiedProcessInfo) : UnifiedProcessInfo :=
  { r with location := ProcessLocation.CpuAndGpu }

/-- Body of the third loop of `merge_process_data` (HBM-migration check): a
mapped process with a nonzero page count on any `GpuHbm` node is promoted
from `CpuOnly` to `CpuAndGpu`; distribution records for unmapped pids are
ignored. -/
def hbmStep (hbm : List Nat) (m : List (Nat × UnifiedProcessInfo))
    (info : ProcessNumaInfo) : List (Nat × UnifiedProcessInfo) :=
  match alGet m info.pid with
  | some procRec =>
    if hbmHit hbm info then
      if procRec.location = ProcessLocation.CpuOnly then
        alInsert m info.pid (promoteLoc procRec)
      else m
    else m
  | none => m

/-- Third loop of `merge_process_data`. -/
def promoteHbm (hbm : List Nat) (m : List (Nat × UnifiedProcessInfo))
    (numa_infos : List ProcessNumaInfo) : List (Nat × UnifiedProcessInfo) :=
  numa_infos.foldl (hbmStep hbm) m

/-- The combined footprint `swap_kb + gpu_memory_kb.unwrap_or(0)` used by the
final sort of `merge_process_data`. -/
def totalMemKb (u : UnifiedProcessInfo) : Nat :=
  u.swap_kb + u.gpu_memory_kb.getD 0

/-- `merge_process_data` from `src/data/mod.rs` (Linux variant): seed from the
swap processes, merge the GPU processes, run the HBM-migration check, then
emit the values sorted by combined footprint descending. -/
def merge_process_data (swap_procs : List ProcessSwapInfo)
    (gpu_procs : List GpuProcessInfo) (numa_infos : List ProcessNumaInfo)
    (numa_nodes : List NumaNode) : List UnifiedProcessInfo :=
  ((promoteHbm (gpuHbmNodes numa_nodes)
      (mergeGpuProcs (insertSwapProcs numa_infos [] swap_procs) gpu_procs)
      numa_infos).map (·.2)).mergeSort
    (fun a b => decide (totalMemKb b ≤ totalMemKb a))

/-! ## Cache scheduling (src/app.rs) -/

/-- `NUMA_TOPOLOGY_TTL = Duration::from_secs(30)`. -/
def NUMA_TOPOLOGY_TTL : Nat := 30

/-- `NUMA_MAPS_TTL = Duration::from_secs(5)`. -/
def NUMA_MAPS_TTL : Nat := 5

/-- `GPU_DEVICES_TTL = Duration::from_secs(10)`. -/
def GPU_DEVICES_TTL : Nat := 10

/-- `GPU_PROCESSES_TTL = Duration::from_secs(1)`. -/
def GPU_PROCESSES_TTL : Nat := 1

/-- One telemetry class's cache: the held value and the last-refresh
timestamp (`None` before the first refresh attempt). -/
structure ClassCache (α : Type) where
  value : α
  last : Option Nat
deriving Repr

/-- The refresh-due check of `refresh_numa_data` / `refresh_gpu_data`:
`self.<class>_last.map(|t| t.elapsed() >= TTL).unwrap_or(true)`, with time as
a `Nat` instant (`now - t` is the elapsed duration). -/
def shouldRefresh (last : Option Nat) (now ttl : Nat) : Bool :=
  (last.map (fun t => decide (ttl ≤ now - t))).getD true

/-- The refresh block of the topology class of `refresh_numa_data` and of
both classes of `refresh_gpu_data`: when the check fires,
`if let Ok(v) = fetch { value = v }` (an `Err` fetch leaves the cached value
untouched) and the timestamp is set to `Instant::now()` unconditionally;
otherwise the state is untouched.  The per-process distribution class of
`refresh_numa_data` does NOT follow this pattern — see `refreshNumaMaps`. -/
def refreshClass {α : Type} (s : ClassCache α) (fetch : Except Unit α)
    (now ttl : Nat) : ClassCache α :=
  if shouldRefresh s.last now ttl then
    { value :=
        match fetch with
        | Except.ok v => v
        | Except.error _ => s.value
      last := some now }
  else s

/-- The per-process distribution block of `refresh_numa_data`
(`src/app.rs`, the `should_refresh_maps` block): when the check fires, a
fresh `infos` vector is built — left empty when the process-list fetch
fails — from the per-process map fetches of the top-20 processes by swap
descending (each fetched map gets `cpu_node` filled from `last_cpu` via the
`cpu_to_numa_node` lookup, passed in as the source function lives outside
this module's sources), and the vector is assigned to the cache
unconditionally; the timestamp is advanced unconditionally.  Unlike the
`refreshClass` pattern, a failed fetch here does not retain the previously
cached value: the rebuilt (possibly empty) vector replaces it. -/
def refreshNumaMaps (s : ClassCache (List ProcessNumaInfo))
    (fetch_procs : Except Unit (List ProcessSwapInfo))
    (fetch_maps : Nat → String → Except Unit ProcessNumaInfo)
    (cpu_to_numa_node : Int → Option Nat) (now : Nat) :
    ClassCache (List ProcessNumaInfo) :=
  if shouldRefresh s.last now NUMA_MAPS_TTL then
    { value :=
        match fetch_procs with
        | Except.ok procs =>
          ((procs.mergeSort (fun a b => decide (b.swap_size ≤ a.swap_size))).take 20).filterMap
            (fun p =>
              match fetch_maps p.pid p.name with
              | Except.ok info =>
                some { info with cpu_node := p.last_cpu.bind cpu_to_numa_node }
              | Except.error _ => none)
        | Except.error _ => []
      last := some now }
  else s

/-- The NUMA-side cache fields of `App` touched by `refresh_numa_data`. -/
structure NumaCacheState where
  numa_nodes : ClassCache (List NumaNode)
  process_numa_infos : ClassCache (List ProcessNumaInfo)

/-- `refresh_numa_data` from `src/app.rs`: return early when NUMA is
unavailable; refresh the topology class (30 s TTL) by the retained-on-error
`refreshClass` pattern; return early unless the NUMA view is active; then run
the rebuild-from-scratch distribution block (5 s TTL). -/
def refresh_numa_data (st : NumaCacheState) (numa_available : Bool)
    (view_is_numa : Bool)
    (fetch_topology : Except Unit (List NumaNode))
    (fetch_procs : Except Unit (List ProcessSwapInfo))
    (fetch_maps : Nat → String → Except Unit ProcessNumaInfo)
    (cpu_to_numa_node : Int → Option Nat) (now : Nat) : NumaCacheState :=
  if !numa_available then st
  else
    let st := { st with
      numa_nodes := refreshClass st.numa_nodes fetch_topology now NUMA_TOPOLOGY_TTL }
    if !view_is_numa then st
    else { st with
      process_numa_infos :=
        refreshNumaMaps st.process_numa_infos fetch_procs fetch_maps
          cpu_to_numa_node now }

/-- The GPU-side cache fields of `App`. -/
structure GpuCacheState where
  gpu_devices : ClassCache (List GpuDevice)
  gpu_processes : ClassCache (List GpuProcessInfo)

/-- `refresh_gpu_data` from `src/app.rs`: return early when the provider is
unavailable, else run the device block (10 s TTL) and the process block
(1 s TTL); the fetch outcomes stand for the provider calls. -/
def refresh_gpu_data (st : GpuCacheState) (gpu_available : Bool)
    (fetch_devices : Except Unit (List GpuDevice))
    (fetch_processes : Except Unit (List GpuProcessInfo)) (now : Nat) :
    GpuCacheState :=
  if !gpu_available then st
  else
    { gpu_devices := refreshClass st.gpu_devices fetch_devices now GPU_DEVICES_TTL
      gpu_processes := refreshClass st.gpu_processes fetch_processes now GPU_PROCESSES_TTL }

/-! ## sort_unified_procs (src/app.rs) -/

/-- `SortColumn` from `src/app.rs`. -/
inductive SortColumn where
  | Swap : SortColumn
  | GpuMem : SortColumn
  | Name : SortColumn
  | NumaNode : SortColumn
deriving DecidableEq, Repr

/-- Rust's `Ord` on `Option<u32>` as a boolean "not greater" relation:
`None` sorts before every `Some`. -/
def optNatLe : Option Nat → Option Nat → Bool
  | none, _ => true
  | some _, none => false
  | some a, some b => decide (a ≤ b)

/-- The `b.swap_kb.cmp(&a.swap_kb)` comparator as "not greater": descending
by swap amount. -/
def swapLe (a b : UnifiedProcessInfo) : Bool :=
  decide (b.swap_kb ≤ a.swap_kb)

/-- The `b.gpu_memory_kb.unwrap_or(0).cmp(&a.gpu_memory_kb.unwrap_or(0))`
comparator as "not greater": descending by GPU memory, absent as zero. -/
def gpuMemLe (a b : UnifiedProcessInfo) : Bool :=
  decide (b.gpu_memory_kb.getD 0 ≤ a.gpu_memory_kb.getD 0)

/-- The `a.name.cmp(&b.name)` comparator as "not greater": ascending
lexicographic (Rust's byte order on UTF-8 agrees with the code-point order
used here). -/
def nameLe (a b : UnifiedProcessInfo) : Bool :=
  decide (a.name ≤ b.name)

/-- The `a.numa_node.cmp(&b.numa_node)` comparator as "not greater":
ascending with `None` least. -/
def numaLe (a b : UnifiedProcessInfo) : Bool :=
  optNatLe a.numa_node b.numa_node

/-- `sort_unified_procs` from `src/app.rs`, the `Vec::sort_by` calls embedded
as the stable sort under `le a b := cmp a b ≠ Greater`. -/
def sort_unified_procs (col : SortColumn) (procs : List UnifiedProcessInfo) :
    List UnifiedProcessInfo :=
  match col with
  | SortColumn.Swap => procs.mergeSort swapLe
  | SortColumn.GpuMem => procs.mergeSort gpuMemLe
  | SortColumn.Name => procs.mergeSort nameLe
  | SortColumn.NumaNode => procs.mergeSort numaLe

/-! ## Association-list lemmas -/

@[simp] theorem alKeys_nil {β : Type} : alKeys ([] : List (Nat × β)) = [] := rfl

@[simp] theorem alKeys_cons {β : Type} (k : Nat) (v : β) (m : List (Nat × β)) :
    alKeys ((k, v) :: m) = k :: alKeys m := rfl

theorem alGet_insert_self {β : Type} (m : List (Nat × β)) (k : Nat) (v : β) :
    alGet (alInsert m k v) k = some v := by
  induction m with
  | nil => simp [alInsert, alGet]
  | cons kv rest ih =>
    obtain ⟨k₀, v₀⟩ := kv
    by_cases h : k₀ = k
    · simp [alInsert, alGet, h]
    · simp [alInsert, alGet, h, ih]

theorem alGet_insert_ne {β : Type} (m : List (Nat × β)) (k k' : Nat) (v : β)
    (h : k' ≠ k) : alGet (alInsert m k v) k' = alGet m k' := by
  induction m with
  | nil => simp [alInsert, alGet, Ne.symm h]
  | cons kv rest ih =>
    obtain ⟨k₀, v₀⟩ := kv
    by_cases hk : k₀ = k
    · subst hk
      simp [alInsert, alGet, Ne.symm h]
    · simp only [alInsert, if_neg hk, alGet]
      by_cases hk' : k₀ = k'
      · simp [hk']
      · simp [hk', ih]

theorem alKeys_insert_eq {β : Type} (m : List (Nat × β)) (k : Nat) (v : β) :
    alKeys (alInsert m k v)
      = if k ∈ alKeys m then alKeys m else alKeys m ++ [k] := by
  induction m with
  | nil => simp [alInsert]
  | cons kv rest ih =>
    obtain ⟨k₀, v₀⟩ := kv
    by_cases hk : k₀ = k
    · subst hk
      simp [alInsert]
    · by_cases hmem : k ∈ alKeys rest
      · simp [alInsert, if_neg hk, ih, hmem, Ne.symm hk]
      · simp [alInsert, if_neg hk, ih, hmem, Ne.symm hk]

theorem mem_alKeys_insert {β : Type} (m : List (Nat × β)) (k k' : Nat) (v : β) :
    k' ∈ alKeys (alInsert m k v) ↔ k' ∈ alKeys m ∨ k' = k := by
  rw [alKeys_insert_eq]
  by_cases hmem : k ∈ alKeys m
  · simp only [if_pos hmem]
    constructor
    · exact Or.inl
    · rintro (h | rfl)
      · exact h
      · exact hmem
  · simp [if_neg hmem]

theorem nodup_alKeys_insert {β : Type} (m : List (Nat × β)) (k : Nat) (v : β)
    (h : (alKeys m).Nodup) : (alKeys (alInsert m k v)).Nodup := by
  rw [alKeys_insert_eq]
  by_cases hmem : k ∈ alKeys m
  · simpa [if_pos hmem] using h
  · simp [if_neg hmem, List.nodup_append, h, hmem]

theorem alGet_mem {β : Type} {m : List (Nat × β)} {k : Nat} {v : β}
    (h : alGet m k = some v) : (k, v) ∈ m := by
  induction m with
  | nil => simp [alGet] at h
  | cons kv rest ih =>
    obtain ⟨k₀, v₀⟩ := kv
    by_cases hk : k₀ = k
    · subst hk
      simp [alGet] at h
      simp [h]
    · simp [alGet, hk] at h
      exact List.mem_cons_of_mem _ (ih h)

theorem alGet_eq_none_iff {β : Type} (m : List (Nat × β)) (k : Nat) :
    alGet m k = none ↔ k ∉ alKeys m := by
  induction m with
  | nil => simp [alGet]
  | cons kv rest ih =>
    obtain ⟨k₀, v₀⟩ := kv
    by_cases hk : k₀ = k
    · subst hk
      simp [alGet]
    · simp [alGet, hk, ih, Ne.symm hk]

theorem mem_alKeys_of_alGet {β : Type} {m : List (Nat × β)} {k : Nat} {v : β}
    (h : alGet m k = some v) : k ∈ alKeys m := by
  by_contra hk
  rw [← alGet_eq_none_iff] at hk
  simp [h] at hk

/-! ## Claim C4: classify_numa_node -/

/-- C4: for every topology node and accelerator-affinity index,
`classify_numa_node` returns `Cpu` whenever the node's CPU set is non-empty
(regardless of the index); returns `GpuHbm` with the mapped device index when
the CPU set is empty and the node id is a key of the index; and returns
`Unknown` otherwise. -/
theorem classify_numa_node_spec (node : NumaNode) (gpu_map : List (Nat × Nat)) :
    (node.cpus ≠ [] → classify_numa_node node gpu_map = NumaNodeType.Cpu) ∧
    (node.cpus = [] → ∀ gi, alGet gpu_map node.id = some gi →
      classify_numa_node node gpu_map = NumaNodeType.GpuHbm gi) ∧
    (node.cpus = [] → alGet gpu_map node.id = none →
      classify_numa_node node gpu_map = NumaNodeType.Unknown) := by
  refine ⟨?_, ?_, ?_⟩
  · intro h
    cases hcpus : node.cpus with
    | nil => exact absurd hcpus h
    | cons c cs => simp [classify_numa_node, hcpus]
  · intro h gi hg
    simp [classify_numa_node, h, hg]
  · intro h hg
    simp [classify_numa_node, h, hg]

/-- Witness for C4: a node with CPUs is `Cpu` even when mapped, a CPU-less
mapped node is `GpuHbm`, a CPU-less unmapped node is `Unknown`. -/
theorem classify_numa_node_spec_witness :
    classify_numa_node ⟨0, 16000000, 8000000, [0, 1, 2, 3], NumaNodeType.Unknown⟩ [(0, 0)]
        = NumaNodeType.Cpu ∧
    classify_numa_node ⟨2, 0, 0, [], NumaNodeType.Unknown⟩ [(2, 0)]
        = NumaNodeType.GpuHbm 0 ∧
    classify_numa_node ⟨3, 0, 0, [], NumaNodeType.Unknown⟩ []
        = NumaNodeType.Unknown :=
  ⟨(classify_numa_node_spec _ _).1 (by decide),
   (classify_numa_node_spec _ _).2.1 (by decide) 0 (by decide),
   (classify_numa_node_spec _ _).2.2 (by decide) (by decide)⟩

/-! ## Claim C7: staleness budgets -/

/-- C7 counterexample: the budgets are not ordered
topology > process-distribution > device > process — the per-process
distribution budget (5 s) is smaller than the device budget (10 s). -/
theorem ttl_claimed_ordering_false :
    ¬ (NUMA_TOPOLOGY_TTL > NUMA_MAPS_TTL ∧ NUMA_MAPS_TTL > GPU_DEVICES_TTL ∧
       GPU_DEVICES_TTL > GPU_PROCESSES_TTL) := by decide

/-- C7 amended: the fixed budgets are strictly ordered
topology (30 s) > accelerator-device (10 s) > per-process distribution (5 s)
> accelerator-process (1 s). -/
theorem ttl_ordering :
    NUMA_TOPOLOGY_TTL > GPU_DEVICES_TTL ∧ GPU_DEVICES_TTL > NUMA_MAPS_TTL ∧
    NUMA_MAPS_TTL > GPU_PROCESSES_TTL := by decide

/-! ## Claim C6: refresh-due check and refresh-on-error policy -/

/-- C6 counterexample: a due refresh of the per-process distribution class
whose process-list fetch fails replaces the cached one-record value with the
freshly rebuilt empty vector — the previously cached value is not retained,
so the state is not unchanged on error for that class. -/
theorem numa_maps_error_wipes_counterexample :
    (refreshNumaMaps (⟨[⟨7, "p", [(0, 1)], 1, none⟩], some 0⟩ :
        ClassCache (List ProcessNumaInfo))
      (Except.error ()) (fun _ _ => Except.error ()) (fun _ => none) 5).value = [] ∧
    ([⟨7, "p", [(0, 1)], 1, none⟩] : List ProcessNumaInfo) ≠ [] := by
  constructor
  · simp [refreshNumaMaps, shouldRefresh, NUMA_MAPS_TTL]
  · decide

/-- C6, amended: for every telemetry class the due check fires when no prior
timestamp exists, and a refresh attempt advances the timestamp to the current
instant whatever the fetch returned.  On a failed fetch the previously cached
value is retained unchanged for the topology, accelerator-device and
accelerator-process classes (the `refreshClass` pattern); the per-process
distribution class instead assigns the freshly rebuilt vector, which is empty
when the process-list fetch fails, wiping the cached value. -/
theorem refresh_stale_policy {α : Type} (s : ClassCache α)
    (sn : ClassCache (List ProcessNumaInfo)) (now ttl : Nat)
    (fetch_maps : Nat → String → Except Unit ProcessNumaInfo)
    (cpu_to_numa_node : Int → Option Nat) :
    (s.last = none → shouldRefresh s.last now ttl = true) ∧
    (∀ fetch : Except Unit α, shouldRefresh s.last now ttl = true →
      (refreshClass s fetch now ttl).last = some now) ∧
    (shouldRefresh s.last now ttl = true →
      (refreshClass s (Except.error ()) now ttl).value = s.value) ∧
    (∀ fetch_procs : Except Unit (List ProcessSwapInfo),
      shouldRefresh sn.last now NUMA_MAPS_TTL = true →
      (refreshNumaMaps sn fetch_procs fetch_maps cpu_to_numa_node now).last
        = some now) ∧
    (shouldRefresh sn.last now NUMA_MAPS_TTL = true →
      (refreshNumaMaps sn (Except.error ()) fetch_maps cpu_to_numa_node now).value
        = []) := by
  refine ⟨?_, ?_, ?_, ?_, ?_⟩
  · intro h
    simp [shouldRefresh, h]
  · intro fetch h
    simp [refreshClass, h]
  · intro h
    simp [refreshClass, h]
  · intro fetch_procs h
    simp [refreshNumaMaps, h]
  · intro h
    simp [refreshNumaMaps, h]

/-- Witness for C6 at concrete class states: a first-call due check, a failed
fetch on a retained-on-error class keeping its value while advancing the
timestamp, and a failed process-list fetch on the distribution class
advancing the timestamp while installing the empty rebuilt vector. -/
theorem refresh_stale_policy_witness :
    shouldRefresh (none : Option Nat) 5 GPU_DEVICES_TTL = true ∧
    (refreshClass (⟨[(42 : Nat)], none⟩ : ClassCache (List Nat)) (Except.error ())
        5 GPU_DEVICES_TTL).last = some 5 ∧
    (refreshClass (⟨[(42 : Nat)], none⟩ : ClassCache (List Nat)) (Except.error ())
        5 GPU_DEVICES_TTL).value = [42] ∧
    (refreshNumaMaps (⟨[⟨7, "p", [(0, 1)], 1, none⟩], some 0⟩ :
        ClassCache (List ProcessNumaInfo))
      (Except.error ()) (fun _ _ => Except.error ()) (fun _ => none) 5).last
        = some 5 ∧
    (refreshNumaMaps (⟨[⟨7, "p", [(0, 1)], 1, none⟩], some 0⟩ :
        ClassCache (List ProcessNumaInfo))
      (Except.error ()) (fun _ _ => Except.error ()) (fun _ => none) 5).value
        = [] :=
  ⟨(refresh_stale_policy (⟨[(42 : Nat)], none⟩ : ClassCache (List Nat))
      (⟨[⟨7, "p", [(0, 1)], 1, none⟩], some 0⟩ : ClassCache (List ProcessNumaInfo))
      5 GPU_DEVICES_TTL (fun _ _ => Except.error ()) (fun _ => none)).1 rfl,
   (refresh_stale_policy (⟨[(42 : Nat)], none⟩ : ClassCache (List Nat))
      (⟨[⟨7, "p", [(0, 1)], 1, none⟩], some 0⟩ : ClassCache (List ProcessNumaInfo))
      5 GPU_DEVICES_TTL (fun _ _ => Except.error ()) (fun _ => none)).2.1
      (Except.error ()) (by decide),
   (refresh_stale_policy (⟨[(42 : Nat)], none⟩ : ClassCache (List Nat))
      (⟨[⟨7, "p", [(0, 1)], 1, none⟩], some 0⟩ : ClassCache (List ProcessNumaInfo))
      5 GPU_DEVICES_TTL (fun _ _ => Except.error ()) (fun _ => none)).2.2.1
      (by decide),
   (refresh_stale_policy (⟨[(42 : Nat)], none⟩ : ClassCache (List Nat))
      (⟨[⟨7, "p", [(0, 1)], 1, none⟩], some 0⟩ : ClassCache (List ProcessNumaInfo))
      5 GPU_DEVICES_TTL (fun _ _ => Except.error ()) (fun _ => none)).2.2.2.1
      (Except.error ()) (by decide),
   (refresh_stale_policy (⟨[(42 : Nat)], none⟩ : ClassCache (List Nat))
      (⟨[⟨7, "p", [(0, 1)], 1, none⟩], some 0⟩ : ClassCache (List ProcessNumaInfo))
      5 GPU_DEVICES_TTL (fun _ _ => Except.error ()) (fun _ => none)).2.2.2.2
      (by decide)⟩

/-! ## Claim C3: parse_cpulist -/

theorem natLeBool_trans (a b c : Nat) (hab : decide (a ≤ b) = true)
    (hbc : decide (b ≤ c) = true) : decide (a ≤ c) = true := by
  simp at hab hbc ⊢
  omega

theorem natLeBool_total (a b : Nat) : (decide (a ≤ b) || decide (b ≤ a)) = true := by
  rcases Nat.le_total a b with h | h <;> simp [h]

theorem pairwise_le_head_min {l : List Nat} {m : Nat}
    (hs : l.Pairwise (· ≤ ·)) (hh : l.head? = some m) : ∀ y ∈ l, m ≤ y := by
  cases l with
  | nil => cases hh
  | cons a t =>
    simp only [List.head?_cons, Option.some.injEq] at hh
    subst hh
    intro y hy
    rcases List.mem_cons.mp hy with rfl | hy
    · exact le_refl _
    · exact List.rel_of_pairwise_cons hs hy

theorem pairwise_le_getLast_max {l : List Nat} {M : Nat}
    (hs : l.Pairwise (· ≤ ·)) (hl : l.getLast? = some M) : ∀ y ∈ l, y ≤ M := by
  rcases List.getLast?_eq_some_iff.mp hl with ⟨ys, rfl⟩
  intro y hy
  rcases List.mem_append.mp hy with hy | hy
  · exact (List.pairwise_append.mp hs).2.2 y hy M (List.mem_singleton_self M)
  · rcases List.mem_singleton.mp hy with rfl
    exact le_refl _

theorem parse_cpulist_sorted (s : String) : (parse_cpulist s).Pairwise (· ≤ ·) := by
  unfold parse_cpulist
  exact (List.sorted_mergeSort natLeBool_trans natLeBool_total _).imp
    (fun h => of_decide_eq_true h)

theorem parse_cpulist_perm (s : String) :
    (parse_cpulist s).Perm (cpulistRaw s.data) :=
  List.mergeSort_perm _ _

/-- C3, amended: for every range-list string the output of `parse_cpulist` is
sorted ascending and is a permutation of the multiset of CPU ids denoted by
the string's tokens, so its first element is the smallest denoted id and its
last the largest; the spec's examples hold.  (The claimed duplicate-freeness
fails — see the counterexample — because overlapping tokens are kept.) -/
theorem parse_cpulist_spec (s : String) :
    (parse_cpulist s).Pairwise (· ≤ ·) ∧
    (parse_cpulist s).Perm (cpulistRaw s.data) ∧
    (∀ m, (parse_cpulist s).head? = some m →
      m ∈ cpulistRaw s.data ∧ ∀ y ∈ cpulistRaw s.data, m ≤ y) ∧
    (∀ M, (parse_cpulist s).getLast? = some M →
      M ∈ cpulistRaw s.data ∧ ∀ y ∈ cpulistRaw s.data, y ≤ M) ∧
    parse_cpulist "0-3,8-11" = [0, 1, 2, 3, 8, 9, 10, 11] ∧
    parse_cpulist "" = [] ∧
    parse_cpulist "5" = [5] := by
  have hsorted := parse_cpulist_sorted s
  have hperm := parse_cpulist_perm s
  refine ⟨hsorted, hperm, ?_, ?_, ?_, ?_, ?_⟩
  · intro m hm
    have hmem : m ∈ parse_cpulist s := by
      cases hl : parse_cpulist s with
      | nil => rw [hl] at hm; cases hm
      | cons a t =>
        rw [hl] at hm
        simp only [List.head?_cons, Option.some.injEq] at hm
        simp [hl, hm]
    exact ⟨hperm.mem_iff.mp hmem,
      fun y hy => pairwise_le_head_min hsorted hm y (hperm.mem_iff.mpr hy)⟩
  · intro M hM
    have hmem : M ∈ parse_cpulist s := by
      rcases List.getLast?_eq_some_iff.mp hM with ⟨ys, hys⟩
      rw [hys]
      exact List.mem_append.mpr (Or.inr (List.mem_singleton_self M))
    exact ⟨hperm.mem_iff.mp hmem,
      fun y hy => pairwise_le_getLast_max hsorted hM y (hperm.mem_iff.mpr hy)⟩
  · rw [parse_cpulist, show cpulistRaw ("0-3,8-11".data) = [0, 1, 2, 3, 8, 9, 10, 11]
      from by decide]
    exact List.mergeSort_of_sorted (by decide)
  · rw [parse_cpulist, show cpulistRaw ("".data) = [] from by decide]
    exact List.mergeSort_nil
  · rw [parse_cpulist, show cpulistRaw ("5".data) = [5] from by decide]
    exact List.mergeSort_singleton 5

/-- Witness for C3 at the spec's own example: 0 and 11 are the extremes of
the ids denoted by the tokens of `"0-3,8-11"`. -/
theorem parse_cpulist_spec_witness :
    (0 ∈ cpulistRaw ("0-3,8-11".data) ∧ ∀ y ∈ cpulistRaw ("0-3,8-11".data), 0 ≤ y) ∧
    (11 ∈ cpulistRaw ("0-3,8-11".data) ∧ ∀ y ∈ cpulistRaw ("0-3,8-11".data), y ≤ 11) ∧
    parse_cpulist "0-3,8-11" = [0, 1, 2, 3, 8, 9, 10, 11] := by
  have h := parse_cpulist_spec "0-3,8-11"
  have he : parse_cpulist "0-3,8-11" = [0, 1, 2, 3, 8, 9, 10, 11] := h.2.2.2.2.1
  exact ⟨h.2.2.1 0 (by rw [he]; rfl), h.2.2.2.1 11 (by rw [he]; decide), he⟩

/-- C3 counterexample: `"1,1"` is a range-list string whose parse is not
duplicate-free — `parse_cpulist` sorts but never deduplicates. -/
theorem parse_cpulist_dup_counterexample :
    parse_cpulist "1,1" = [1, 1] ∧ ¬ (parse_cpulist "1,1").Nodup := by
  have h : parse_cpulist "1,1" = [1, 1] := by
    rw [parse_cpulist, show cpulistRaw ("1,1".data) = [1, 1] from by decide]
    exact List.mergeSort_of_sorted (by decide)
  exact ⟨h, by rw [h]; decide⟩

/-! ## Claim C5: parse_numa_maps aggregation -/

theorem alGetD_entryAdd_self (m : List (Nat × Nat)) (k v : Nat) :
    alGetD (alEntryAdd m k v) k = alGetD m k + v := by
  induction m with
  | nil => simp [alEntryAdd, alGetD, alGet]
  | cons kv rest ih =>
    obtain ⟨k₀, v₀⟩ := kv
    by_cases h : k₀ = k
    · subst h
      simp [alEntryAdd, alGetD, alGet]
    · have ih' : (alGet (alEntryAdd rest k v) k).getD 0 = (alGet rest k).getD 0 + v := by
        simpa [alGetD] using ih
      simp [alEntryAdd, alGetD, alGet, h, ih']

theorem alGetD_entryAdd_ne (m : List (Nat × Nat)) (k k' v : Nat) (h : k' ≠ k) :
    alGetD (alEntryAdd m k v) k' = alGetD m k' := by
  induction m with
  | nil => simp [alEntryAdd, alGetD, alGet, Ne.symm h]
  | cons kv rest ih =>
    obtain ⟨k₀, v₀⟩ := kv
    by_cases hk : k₀ = k
    · subst hk
      simp [alEntryAdd, alGetD, alGet, Ne.symm h]
    · by_cases hk' : k₀ = k'
      · subst hk'
        simp [alEntryAdd, alGetD, alGet, hk, h]
      · have ih' : (alGet (alEntryAdd rest k v) k').getD 0 = (alGet rest k').getD 0 := by
          simpa [alGetD] using ih
        simp [alEntryAdd, alGetD, alGet, hk, hk', ih']

theorem valsum_entryAdd (m : List (Nat × Nat)) (k v : Nat) :
    ((alEntryAdd m k v).map (·.2)).sum = (m.map (·.2)).sum + v := by
  induction m with
  | nil => simp [alEntryAdd]
  | cons kv rest ih =>
    obtain ⟨k₀, v₀⟩ := kv
    by_cases h : k₀ = k
    · subst h
      simp [alEntryAdd]
      omega
    · simp [alEntryAdd, h, ih]
      omega

theorem alGetD_foldl_entryAdd (ts : List (Nat × Nat)) (m : List (Nat × Nat)) (k : Nat) :
    alGetD (ts.foldl (fun m t => alEntryAdd m t.1 t.2) m) k
      = alGetD m k + ((ts.filter (fun t => t.1 == k)).map (·.2)).sum := by
  induction ts generalizing m with
  | nil => simp
  | cons t ts ih =>
    obtain ⟨k₀, v₀⟩ := t
    by_cases h : k₀ = k
    · subst h
      simp [List.foldl_cons, ih, alGetD_entryAdd_self]
      omega
    · simp [List.foldl_cons, ih, alGetD_entryAdd_ne m k₀ k v₀ (Ne.symm h), h]

theorem valsum_foldl_entryAdd (ts : List (Nat × Nat)) (m : List (Nat × Nat)) :
    (((ts.foldl (fun m t => alEntryAdd m t.1 t.2) m)).map (·.2)).sum
      = (m.map (·.2)).sum + (ts.map (·.2)).sum := by
  induction ts generalizing m with
  | nil => simp
  | cons t ts ih =>
    obtain ⟨k₀, v₀⟩ := t
    simp [List.foldl_cons, ih, valsum_entryAdd]
    omega

/-- C5: for every page-distribution text, the accumulated value of each node
id equals the arithmetic sum of every `N<id>=<count>` token for that id
across all lines (repeated keys are summed, never overwritten), and
`total_pages` equals both the sum of the per-node values and the sum of all
token counts. -/
theorem parse_numa_maps_sums (content : String) (pid : Nat) (name : String) :
    (∀ k, alGetD (parse_numa_maps content pid name).pages_per_node k
        = (((numaMapsTokens content.data).filter (fun t => t.1 == k)).map (·.2)).sum) ∧
    (parse_numa_maps content pid name).total_pages
        = ((parse_numa_maps content pid name).pages_per_node.map (·.2)).sum ∧
    (parse_numa_maps content pid name).total_pages
        = ((numaMapsTokens content.data).map (·.2)).sum := by
  refine ⟨?_, rfl, ?_⟩
  · intro k
    show alGetD (numaPages content.data) k = _
    rw [numaPages, alGetD_foldl_entryAdd]
    simp [alGetD, alGet]
  · show ((numaPages content.data).map (·.2)).sum = _
    rw [numaPages, valsum_foldl_entryAdd]
    simp

/-! ## merge_process_data: map invariants -/

/-- Every binding of the accumulator maps a pid to a record carrying that
pid. -/
def pidConsistent (m : List (Nat × UnifiedProcessInfo)) : Prop :=
  ∀ kv ∈ m, (kv : Nat × UnifiedProcessInfo).2.pid = kv.1

theorem pid_of_alGet {m : List (Nat × UnifiedProcessInfo)} {k : Nat}
    {v : UnifiedProcessInfo} (h : pidConsistent m) (hg : alGet m k = some v) :
    v.pid = k :=
  h (k, v) (alGet_mem hg)

theorem mem_alInsert {β : Type} :
    ∀ (m : List (Nat × β)) (k : Nat) (v : β) (kv : Nat × β),
      kv ∈ alInsert m k v → kv = (k, v) ∨ kv ∈ m := by
  intro m
  induction m with
  | nil =>
    intro k v kv hkv
    simp only [alInsert, List.mem_singleton] at hkv
    exact Or.inl hkv
  | cons kv₀ rest ih =>
    intro k v kv hkv
    obtain ⟨k₀, v₀⟩ := kv₀
    by_cases hk : k₀ = k
    · subst hk
      simp only [alInsert, if_pos rfl, if_true, eq_self_iff_true, List.mem_cons] at hkv
      rcases hkv with h | h
      · exact Or.inl h
      · exact Or.inr (List.mem_cons_of_mem _ h)
    · simp only [alInsert, if_neg hk, List.mem_cons] at hkv
      rcases hkv with h | h
      · exact Or.inr (by rw [h]; exact List.mem_cons_self _ _)
      · rcases ih k v kv h with h' | h'
        · exact Or.inl h'
        · exact Or.inr (List.mem_cons_of_mem _ h')

theorem pidConsistent_insert {k : Nat} {v : UnifiedProcessInfo} (hv : v.pid = k)
    (m : List (Nat × UnifiedProcessInfo)) (h : pidConsistent m) :
    pidConsistent (alInsert m k v) := by
  intro kv hkv
  rcases mem_alInsert m k v kv hkv with rfl | hkv
  · exact hv
  · exact h kv hkv

/-! ### Step equations -/

theorem gpuStep_existing {m : List (Nat × UnifiedProcessInfo)}
    {gp : GpuProcessInfo} {existing : UnifiedProcessInfo}
    (hg : alGet m gp.pid = some existing) :
    gpuStep m gp = alInsert m gp.pid (gpuMergedRec existing gp) := by
  simp [gpuStep, hg]

theorem gpuStep_new {m : List (Nat × UnifiedProcessInfo)} {gp : GpuProcessInfo}
    (hg : alGet m gp.pid = none) :
    gpuStep m gp = alInsert m gp.pid (gpuOnlyRec gp) := by
  simp [gpuStep, hg]

theorem hbmStep_none {hbm : List Nat} {m : List (Nat × UnifiedProcessInfo)}
    {info : ProcessNumaInfo} (hg : alGet m info.pid = none) :
    hbmStep hbm m info = m := by
  simp [hbmStep, hg]

theorem hbmStep_nohit {hbm : List Nat} {m : List (Nat × UnifiedProcessInfo)}
    {info : ProcessNumaInfo} {procRec : UnifiedProcessInfo}
    (hg : alGet m info.pid = some procRec) (hhit : hbmHit hbm info = false) :
    hbmStep hbm m info = m := by
  simp [hbmStep, hg, hhit]

theorem hbmStep_noloc {hbm : List Nat} {m : List (Nat × UnifiedProcessInfo)}
    {info : ProcessNumaInfo} {procRec : UnifiedProcessInfo}
    (hg : alGet m info.pid = some procRec)
    (hloc : procRec.location ≠ ProcessLocation.CpuOnly) :
    hbmStep hbm m info = m := by
  simp [hbmStep, hg, hloc]

theorem hbmStep_promote {hbm : List Nat} {m : List (Nat × UnifiedProcessInfo)}
    {info : ProcessNumaInfo} {procRec : UnifiedProcessInfo}
    (hg : alGet m info.pid = some procRec) (hhit : hbmHit hbm info = true)
    (hloc : procRec.location = ProcessLocation.CpuOnly) :
    hbmStep hbm m info = alInsert m info.pid (promoteLoc procRec) := by
  simp [hbmStep, hg, hhit, hloc]

theorem insertSwapProcs_cons (N : List ProcessNumaInfo)
    (m : List (Nat × UnifiedProcessInfo)) (p : ProcessSwapInfo)
    (S : List ProcessSwapInfo) :
    insertSwapProcs N m (p :: S)
      = insertSwapProcs N (alInsert m p.pid (swapUnified N p)) S := rfl

theorem mergeGpuProcs_cons (m : List (Nat × UnifiedProcessInfo))
    (gp : GpuProcessInfo) (G : List GpuProcessInfo) :
    mergeGpuProcs m (gp :: G) = mergeGpuProcs (gpuStep m gp) G := rfl

theorem promoteHbm_cons (hbm : List Nat) (m : List (Nat × UnifiedProcessInfo))
    (info : ProcessNumaInfo) (N : List ProcessNumaInfo) :
    promoteHbm hbm m (info :: N) = promoteHbm hbm (hbmStep hbm m info) N := rfl

/-! ### Invariant preservation -/

theorem pidConsistent_insertSwapProcs (N : List ProcessNumaInfo)
    (S : List ProcessSwapInfo) :
    ∀ m, pidConsistent m → pidConsistent (insertSwapProcs N m S) := by
  induction S with
  | nil => intro m h; exact h
  | cons p S ih =>
    intro m h
    rw [insertSwapProcs_cons]
    exact ih _ (pidConsistent_insert
      (show (swapUnified N p).pid = p.pid from rfl) m h)

theorem pidConsistent_gpuStep (m : List (Nat × UnifiedProcessInfo))
    (gp : GpuProcessInfo) (h : pidConsistent m) : pidConsistent (gpuStep m gp) := by
  cases hg : alGet m gp.pid with
  | some existing =>
    rw [gpuStep_existing hg]
    have hpid : existing.pid = gp.pid := pid_of_alGet h hg
    exact pidConsistent_insert
      (show (gpuMergedRec existing gp).pid = gp.pid from hpid) m h
  | none =>
    rw [gpuStep_new hg]
    exact pidConsistent_insert (show (gpuOnlyRec gp).pid = gp.pid from rfl) m h

theorem pidConsistent_mergeGpuProcs (G : List GpuProcessInfo) :
    ∀ m, pidConsistent m → pidConsistent (mergeGpuProcs m G) := by
  induction G with
  | nil => intro m h; exact h
  | cons gp G ih =>
    intro m h
    rw [mergeGpuProcs_cons]
    exact ih _ (pidConsistent_gpuStep m gp h)

theorem pidConsistent_hbmStep (hbm : List Nat) (m : List (Nat × UnifiedProcessInfo))
    (info : ProcessNumaInfo) (h : pidConsistent m) :
    pidConsistent (hbmStep hbm m info) := by
  cases hg : alGet m info.pid with
  | some procRec =>
    cases hhit : hbmHit hbm info with
    | true =>
      by_cases hloc : procRec.location = ProcessLocation.CpuOnly
      · rw [hbmStep_promote hg hhit hloc]
        have hpid : procRec.pid = info.pid := pid_of_alGet h hg
        exact pidConsistent_insert
          (show (promoteLoc procRec).pid = info.pid from hpid) m h
      · rw [hbmStep_noloc hg hloc]
        exact h
    | false =>
      rw [hbmStep_nohit hg hhit]
      exact h
  | none =>
    rw [hbmStep_none hg]
    exact h

theorem pidConsistent_promoteHbm (hbm : List Nat) (N : List ProcessNumaInfo) :
    ∀ m, pidConsistent m → pidConsistent (promoteHbm hbm m N) := by
  induction N with
  | nil => intro m h; exact h
  | cons info N ih =>
    intro m h
    rw [promoteHbm_cons]
    exact ih _ (pidConsistent_hbmStep hbm m info h)

theorem values_pids : ∀ m : List (Nat × UnifiedProcessInfo), pidConsistent m →
    (m.map (·.2)).map (·.pid) = alKeys m := by
  intro m
  induction m with
  | nil => intro _; rfl
  | cons kv rest ih =>
    intro h
    obtain ⟨k₀, v₀⟩ := kv
    have h₀ : v₀.pid = k₀ := h (k₀, v₀) (List.mem_cons_self _ _)
    have hrest : pidConsistent rest := fun kv hkv => h kv (List.mem_cons_of_mem _ hkv)
    simp [h₀, ih hrest]

/-! ## merge_process_data: key-set lemmas -/

theorem mem_alKeys_insertSwapProcs (N : List ProcessNumaInfo)
    (S : List ProcessSwapInfo) :
    ∀ m k, k ∈ alKeys (insertSwapProcs N m S) ↔
      k ∈ alKeys m ∨ k ∈ S.map (·.pid) := by
  induction S with
  | nil => intro m k; simp [insertSwapProcs]
  | cons p S ih =>
    intro m k
    rw [insertSwapProcs_cons, ih, mem_alKeys_insert]
    simp only [List.map_cons, List.mem_cons]
    tauto

theorem mem_alKeys_gpuStep (m : List (Nat × UnifiedProcessInfo))
    (gp : GpuProcessInfo) (k : Nat) :
    k ∈ alKeys (gpuStep m gp) ↔ k ∈ alKeys m ∨ k = gp.pid := by
  cases hg : alGet m gp.pid with
  | some existing => rw [gpuStep_existing hg, mem_alKeys_insert]
  | none => rw [gpuStep_new hg, mem_alKeys_insert]

theorem mem_alKeys_mergeGpuProcs (G : List GpuProcessInfo) :
    ∀ m k, k ∈ alKeys (mergeGpuProcs m G) ↔
      k ∈ alKeys m ∨ k ∈ G.map (·.pid) := by
  induction G with
  | nil => intro m k; simp [mergeGpuProcs]
  | cons gp G ih =>
    intro m k
    rw [mergeGpuProcs_cons, ih, mem_alKeys_gpuStep]
    simp only [List.map_cons, List.mem_cons]
    tauto

theorem mem_alKeys_hbmStep (hbm : List Nat) (m : List (Nat × UnifiedProcessInfo))
    (info : ProcessNumaInfo) (k : Nat) :
    k ∈ alKeys (hbmStep hbm m info) ↔ k ∈ alKeys m := by
  cases hg : alGet m info.pid with
  | some procRec =>
    cases hhit : hbmHit hbm info with
    | true =>
      by_cases hloc : procRec.location = ProcessLocation.CpuOnly
      · rw [hbmStep_promote hg hhit hloc, mem_alKeys_insert]
        constructor
        · rintro (h | rfl)
          · exact h
          · exact mem_alKeys_of_alGet hg
        · exact Or.inl
      · rw [hbmStep_noloc hg hloc]
    | false => rw [hbmStep_nohit hg hhit]
  | none => rw [hbmStep_none hg]

theorem mem_alKeys_promoteHbm (hbm : List Nat) (N : List ProcessNumaInfo) :
    ∀ m k, k ∈ alKeys (promoteHbm hbm m N) ↔ k ∈ alKeys m := by
  induction N with
  | nil => intro m k; exact Iff.rfl
  | cons info N ih =>
    intro m k
    rw [promoteHbm_cons, ih, mem_alKeys_hbmStep]

/-! ## merge_process_data: key uniqueness -/

theorem nodup_alKeys_insertSwapProcs (N : List ProcessNumaInfo)
    (S : List ProcessSwapInfo) :
    ∀ m, (alKeys m).Nodup → (alKeys (insertSwapProcs N m S)).Nodup := by
  induction S with
  | nil => intro m h; exact h
  | cons p S ih =>
    intro m h
    rw [insertSwapProcs_cons]
    exact ih _ (nodup_alKeys_insert m p.pid _ h)

theorem nodup_alKeys_gpuStep (m : List (Nat × UnifiedProcessInfo))
    (gp : GpuProcessInfo) (h : (alKeys m).Nodup) : (alKeys (gpuStep m gp)).Nodup := by
  cases hg : alGet m gp.pid with
  | some existing =>
    rw [gpuStep_existing hg]
    exact nodup_alKeys_insert m gp.pid _ h
  | none =>
    rw [gpuStep_new hg]
    exact nodup_alKeys_insert m gp.pid _ h

theorem nodup_alKeys_mergeGpuProcs (G : List GpuProcessInfo) :
    ∀ m, (alKeys m).Nodup → (alKeys (mergeGpuProcs m G)).Nodup := by
  induction G with
  | nil => intro m h; exact h
  | cons gp G ih =>
    intro m h
    rw [mergeGpuProcs_cons]
    exact ih _ (nodup_alKeys_gpuStep m gp h)

theorem nodup_alKeys_hbmStep (hbm : List Nat) (m : List (Nat × UnifiedProcessInfo))
    (info : ProcessNumaInfo) (h : (alKeys m).Nodup) :
    (alKeys (hbmStep hbm m info)).Nodup := by
  cases hg : alGet m info.pid with
  | some procRec =>
    cases hhit : hbmHit hbm info with
    | true =>
      by_cases hloc : procRec.location = ProcessLocation.CpuOnly
      · rw [hbmStep_promote hg hhit hloc]
        exact nodup_alKeys_insert m info.pid _ h
      · rw [hbmStep_noloc hg hloc]
        exact h
    | false =>
      rw [hbmStep_nohit hg hhit]
      exact h
  | none =>
    rw [hbmStep_none hg]
    exact h

theorem nodup_alKeys_promoteHbm (hbm : List Nat) (N : List ProcessNumaInfo) :
    ∀ m, (alKeys m).Nodup → (alKeys (promoteHbm hbm m N)).Nodup := by
  induction N with
  | nil => intro m h; exact h
  | cons info N ih =>
    intro m h
    rw [promoteHbm_cons]
    exact ih _ (nodup_alKeys_hbmStep hbm m info h)

/-! ## Claim C10: merge output is pre-ranked by combined footprint -/

/-- C10: for every triple of inputs, the sequence returned by
`merge_process_data` is already sorted in descending order of combined
footprint `swap_kb + gpu_memory_kb` (absent accelerator memory counted as
zero) before any user-selected sort key is applied. -/
theorem merge_process_data_presorted (S : List ProcessSwapInfo)
    (G : List GpuProcessInfo) (N : List ProcessNumaInfo)
    (nodes : List NumaNode) :
    (merge_process_data S G N nodes).Pairwise
      (fun a b => totalMemKb b ≤ totalMemKb a) := by
  refine (List.sorted_mergeSort ?_ ?_ _).imp (fun h => of_decide_eq_true h)
  · intro a b c hab hbc
    exact natLeBool_trans _ _ _ hbc hab
  · intro a b
    exact natLeBool_total _ _

/-! ## Claim C1: process-identity set of the join -/

theorem merge_values_perm (S : List ProcessSwapInfo) (G : List GpuProcessInfo)
    (N : List ProcessNumaInfo) (nodes : List NumaNode) :
    (merge_process_data S G N nodes).Perm
      ((promoteHbm (gpuHbmNodes nodes)
        (mergeGpuProcs (insertSwapProcs N [] S) G) N).map (·.2)) :=
  List.mergeSort_perm _ _

/-- C1, amended: the output process-identity set equals the union of the swap
and accelerator identity sets — distribution-only pids are dropped, not
joined — and each surviving processId appears exactly once. -/
theorem merge_process_data_pid_set (S : List ProcessSwapInfo)
    (G : List GpuProcessInfo) (N : List ProcessNumaInfo)
    (nodes : List NumaNode) :
    ((merge_process_data S G N nodes).map (·.pid)).Nodup ∧
    (∀ k, k ∈ (merge_process_data S G N nodes).map (·.pid) ↔
      k ∈ S.map (·.pid) ∨ k ∈ G.map (·.pid)) := by
  have hpc : pidConsistent (promoteHbm (gpuHbmNodes nodes)
      (mergeGpuProcs (insertSwapProcs N [] S) G) N) :=
    pidConsistent_promoteHbm _ _ _
      (pidConsistent_mergeGpuProcs _ _
        (pidConsistent_insertSwapProcs _ _ _ (fun kv hkv => absurd hkv (List.not_mem_nil kv))))
  have hnodup : (alKeys (promoteHbm (gpuHbmNodes nodes)
      (mergeGpuProcs (insertSwapProcs N [] S) G) N)).Nodup :=
    nodup_alKeys_promoteHbm _ _ _
      (nodup_alKeys_mergeGpuProcs _ _
        (nodup_alKeys_insertSwapProcs _ _ _ List.nodup_nil))
  have hperm : ((merge_process_data S G N nodes).map (·.pid)).Perm
      (alKeys (promoteHbm (gpuHbmNodes nodes)
        (mergeGpuProcs (insertSwapProcs N [] S) G) N)) := by
    have h1 := (merge_values_perm S G N nodes).map (·.pid)
    rw [values_pids _ hpc] at h1
    exact h1
  constructor
  · exact hperm.nodup_iff.mpr hnodup
  · intro k
    rw [hperm.mem_iff, mem_alKeys_promoteHbm, mem_alKeys_mergeGpuProcs,
      mem_alKeys_insertSwapProcs]
    simp

/-- C1 counterexample: a distribution-only processId (5) is absent from the
output, so the output identity set is not the union of all three inputs'
identity sets. -/
theorem merge_pid_union_counterexample :
    (merge_process_data [] [] [⟨5, "x", [(0, 1)], 1, none⟩] []).map (·.pid) = [] ∧
    (5 : Nat) ∈ ([⟨5, "x", [(0, 1)], 1, none⟩] : List ProcessNumaInfo).map (·.pid) := by
  constructor
  · simp [merge_process_data, insertSwapProcs, mergeGpuProcs, promoteHbm, hbmStep,
      gpuHbmNodes, alGet, List.mergeSort]
  · simp

/-! ## Claim C2: HBM-migration promotion -/

theorem alGet_insertSwapProcs (N : List ProcessNumaInfo) (S : List ProcessSwapInfo) :
    ∀ m k, alGet (insertSwapProcs N m S) k =
      match S.reverse.find? (fun p => p.pid == k) with
      | some p => some (swapUnified N p)
      | none => alGet m k := by
  induction S with
  | nil => intro m k; rfl
  | cons p S ih =>
    intro m k
    rw [insertSwapProcs_cons, ih]
    cases hf : S.reverse.find? (fun q => q.pid == k) with
    | some q => simp [List.reverse_cons, List.find?_append, hf]
    | none =>
      by_cases hk : p.pid = k
      · simp [List.reverse_cons, List.find?_append, hf, List.find?, hk,
          alGet_insert_self]
      · have hbeq : (p.pid == k) = false := by simp [hk]
        simp [List.reverse_cons, List.find?_append, hf, List.find?, hbeq,
          alGet_insert_ne m p.pid k _ (Ne.symm hk)]

theorem find?_pid_exists {S : List ProcessSwapInfo} {p : ProcessSwapInfo}
    (hp : p ∈ S) :
    ∃ q, S.reverse.find? (fun q => q.pid == p.pid) = some q ∧ q.pid = p.pid := by
  have hsome : (S.reverse.find? (fun q => q.pid == p.pid)).isSome :=
    List.find?_isSome.mpr ⟨p, List.mem_reverse.mpr hp, by simp⟩
  cases hf : S.reverse.find? (fun q => q.pid == p.pid) with
  | none => rw [hf] at hsome; cases hsome
  | some q => exact ⟨q, rfl, by simpa using List.find?_some hf⟩

theorem alGet_gpuStep_ne (m : List (Nat × UnifiedProcessInfo))
    (gp : GpuProcessInfo) (k : Nat) (h : gp.pid ≠ k) :
    alGet (gpuStep m gp) k = alGet m k := by
  cases hg : alGet m gp.pid with
  | some existing => rw [gpuStep_existing hg, alGet_insert_ne m gp.pid k _ (Ne.symm h)]
  | none => rw [gpuStep_new hg, alGet_insert_ne m gp.pid k _ (Ne.symm h)]

theorem alGet_mergeGpuProcs_ne (G : List GpuProcessInfo) :
    ∀ m k, (∀ gp ∈ G, gp.pid ≠ k) → alGet (mergeGpuProcs m G) k = alGet m k := by
  induction G with
  | nil => intro m k _; rfl
  | cons gp G ih =>
    intro m k h
    rw [mergeGpuProcs_cons, ih _ _ (fun q hq => h q (List.mem_cons_of_mem _ hq)),
      alGet_gpuStep_ne m gp k (h gp (List.mem_cons_self _ _))]

theorem alGet_hbmStep_ne (hbm : List Nat) (m : List (Nat × UnifiedProcessInfo))
    (info : ProcessNumaInfo) (k : Nat) (h : info.pid ≠ k) :
    alGet (hbmStep hbm m info) k = alGet m k := by
  cases hg : alGet m info.pid with
  | none => rw [hbmStep_none hg]
  | some procRec =>
    cases hhit : hbmHit hbm info with
    | false => rw [hbmStep_nohit hg hhit]
    | true =>
      by_cases hloc : procRec.location = ProcessLocation.CpuOnly
      · rw [hbmStep_promote hg hhit hloc, alGet_insert_ne m info.pid k _ (Ne.symm h)]
      · rw [hbmStep_noloc hg hloc]

theorem promoteLoc_idem (r : UnifiedProcessInfo) :
    promoteLoc (promoteLoc r) = promoteLoc r := rfl

theorem promoteLoc_of_cpuAndGpu {r : UnifiedProcessInfo}
    (h : r.location = ProcessLocation.CpuAndGpu) : promoteLoc r = r := by
  cases r with
  | mk pid name swap_kb numa_node gpu_memory_kb gpu_index location =>
    simp only [promoteLoc] at h ⊢
    rw [h]

/-- Through the whole HBM-promotion loop, a record that starts `CpuOnly` and
has a matching distribution record with a nonzero HBM page count (or that is
already `CpuAndGpu`) ends as its own promotion: same fields, placement
`CpuAndGpu`. -/
theorem alGet_promoteHbm_promotes (hbm : List Nat) :
    ∀ (N : List ProcessNumaInfo) (m : List (Nat × UnifiedProcessInfo))
      (k : Nat) (r : UnifiedProcessInfo),
      alGet m k = some r →
      ((r.location = ProcessLocation.CpuOnly ∧
          ∃ info ∈ N, info.pid = k ∧ hbmHit hbm info = true) ∨
        r.location = ProcessLocation.CpuAndGpu) →
      alGet (promoteHbm hbm m N) k = some (promoteLoc r) := by
  intro N
  induction N with
  | nil =>
    intro m k r hget hcond
    rcases hcond with ⟨_, info, hinfo, _⟩ | hloc
    · exact absurd hinfo (List.not_mem_nil info)
    · show alGet m k = some (promoteLoc r)
      rw [hget, promoteLoc_of_cpuAndGpu hloc]
  | cons info₀ N ih =>
    intro m k r hget hcond
    rw [promoteHbm_cons]
    by_cases hpid : info₀.pid = k
    · have hget₀ : alGet m info₀.pid = some r := by rw [hpid]; exact hget
      cases hhit : hbmHit hbm info₀ with
      | true =>
        by_cases hloc : r.location = ProcessLocation.CpuOnly
        · have hget' : alGet (hbmStep hbm m info₀) k = some (promoteLoc r) := by
            rw [hbmStep_promote hget₀ hhit hloc, ← hpid]
            exact alGet_insert_self m info₀.pid (promoteLoc r)
          have := ih _ _ _ hget' (Or.inr rfl)
          rwa [promoteLoc_idem] at this
        · rcases hcond with ⟨hl, _⟩ | hl
          · exact absurd hl hloc
          · rw [hbmStep_noloc hget₀ hloc]
            exact ih _ _ _ hget (Or.inr hl)
      | false =>
        rw [hbmStep_nohit hget₀ hhit]
        rcases hcond with ⟨hl, info, hiN, hipid, hihit⟩ | hl
        · rcases List.mem_cons.mp hiN with rfl | hiN
          · rw [hihit] at hhit; cases hhit
          · exact ih _ _ _ hget (Or.inl ⟨hl, info, hiN, hipid, hihit⟩)
        · exact ih _ _ _ hget (Or.inr hl)
    · have hstep : alGet (hbmStep hbm m info₀) k = alGet m k :=
        alGet_hbmStep_ne hbm m info₀ k hpid
      rcases hcond with ⟨hl, info, hiN, hipid, hihit⟩ | hl
      · rcases List.mem_cons.mp hiN with rfl | hiN
        · exact absurd hipid hpid
        · exact ih _ _ _ (hstep.trans hget) (Or.inl ⟨hl, info, hiN, hipid, hihit⟩)
      · exact ih _ _ _ (hstep.trans hget) (Or.inr hl)

/-- C2: a process with a swap record, no accelerator process record, and a
distribution record with a nonzero page count on some node classified
`GpuHbm`, appears in the correlated output as `CpuAndGpu` while its
accelerator memory stays `none`. -/
theorem merge_migration_promotion (S : List ProcessSwapInfo)
    (G : List GpuProcessInfo) (N : List ProcessNumaInfo) (nodes : List NumaNode)
    (p : ProcessSwapInfo) (info : ProcessNumaInfo) (node : NumaNode) (gi : Nat)
    (hp : p ∈ S) (hg : ∀ gp ∈ G, gp.pid ≠ p.pid)
    (hiN : info ∈ N) (hipid : info.pid = p.pid)
    (hnode : node ∈ nodes) (hhbm : node.node_type = NumaNodeType.GpuHbm gi)
    (hpages : 0 < alGetD info.pages_per_node node.id) :
    ∃ u ∈ merge_process_data S G N nodes,
      u.pid = p.pid ∧ u.location = ProcessLocation.CpuAndGpu ∧
      u.gpu_memory_kb = none := by
  obtain ⟨q, hfind, hqpid⟩ := find?_pid_exists hp
  have h1 : alGet (insertSwapProcs N [] S) p.pid = some (swapUnified N q) := by
    rw [alGet_insertSwapProcs, hfind]
  have h2 : alGet (mergeGpuProcs (insertSwapProcs N [] S) G) p.pid
      = some (swapUnified N q) :=
    (alGet_mergeGpuProcs_ne G _ _ hg).trans h1
  have hhit : hbmHit (gpuHbmNodes nodes) info = true := by
    apply List.any_eq_true.mpr
    refine ⟨node.id, ?_, by simpa using hpages⟩
    unfold gpuHbmNodes
    exact List.mem_map.mpr ⟨node, List.mem_filter.mpr ⟨hnode, by rw [hhbm]⟩, rfl⟩
  have h3 : alGet (promoteHbm (gpuHbmNodes nodes)
      (mergeGpuProcs (insertSwapProcs N [] S) G) N) p.pid
      = some (promoteLoc (swapUnified N q)) := by
    apply alGet_promoteHbm_promotes (gpuHbmNodes nodes) N _ _ _ h2
    exact Or.inl ⟨rfl, info, hiN, hipid, hhit⟩
  refine ⟨promoteLoc (swapUnified N q), ?_, ?_, rfl, rfl⟩
  · have hout : merge_process_data S G N nodes
        = ((promoteHbm (gpuHbmNodes nodes)
            (mergeGpuProcs (insertSwapProcs N [] S) G) N).map (·.2)).mergeSort
          (fun a b => decide (totalMemKb b ≤ totalMemKb a)) := rfl
    rw [hout, List.mem_mergeSort]
    exact List.mem_map.mpr ⟨(p.pid, promoteLoc (swapUnified N q)), alGet_mem h3, rfl⟩
  · exact hqpid

/-- Witness for C2, mirroring the repository's own migration test: pid 100
has swap, no GPU process record, and 100 pages on HBM node 2. -/
theorem merge_migration_promotion_witness :
    ∃ u ∈ merge_process_data [⟨100, "migrated", 1024, none⟩] []
        [⟨100, "migrated", [(0, 500), (2, 100)], 600, none⟩]
        [⟨0, 16000000, 8000000, [0, 1], NumaNodeType.Cpu⟩,
         ⟨2, 81920000, 40960000, [], NumaNodeType.GpuHbm 0⟩],
      u.pid = 100 ∧ u.location = ProcessLocation.CpuAndGpu ∧
      u.gpu_memory_kb = none :=
  merge_migration_promotion
    [⟨100, "migrated", 1024, none⟩] []
    [⟨100, "migrated", [(0, 500), (2, 100)], 600, none⟩]
    [⟨0, 16000000, 8000000, [0, 1], NumaNodeType.Cpu⟩,
     ⟨2, 81920000, 40960000, [], NumaNodeType.GpuHbm 0⟩]
    ⟨100, "migrated", 1024, none⟩
    ⟨100, "migrated", [(0, 500), (2, 100)], 600, none⟩
    ⟨2, 81920000, 40960000, [], NumaNodeType.GpuHbm 0⟩ 0
    (List.mem_singleton_self _)
    (fun gp hgp => absurd hgp (List.not_mem_nil gp))
    (List.mem_singleton_self _) rfl
    (List.mem_cons_of_mem _ (List.mem_singleton_self _)) rfl
    (by decide)

/-! ## Claim C9: end-to-end scenario -/

/-- C9 counterexample: on the spec's scenario, ranking the correlated records
by the swap key puts the accelerator-only process c (swap 0) last, not
first — the resulting name order is [b, a, c], not the claimed [c, b, a]. -/
theorem merge_rank_by_swap_counterexample :
    (sort_unified_procs SortColumn.Swap
      (merge_process_data [⟨1, "a", 100, none⟩, ⟨2, "b", 5000, none⟩]
        [⟨3, "c", 0, 10000⟩] [] [])).map (·.name) = ["b", "a", "c"] ∧
    (["b", "a", "c"] : List String) ≠ ["c", "b", "a"] := by
  constructor
  · simp [merge_process_data, insertSwapProcs, mergeGpuProcs, promoteHbm,
      gpuHbmNodes, List.mergeSort, List.splitInTwo, List.merge, totalMemKb,
      alInsert, alGet, gpuStep, gpuMergedRec, gpuOnlyRec, swapUnified,
      List.foldl, sort_unified_procs, swapLe]
  · decide

/-- C9, amended: on the spec's scenario `correlate` alone already yields the
order [c (accelerator-only), b (5000), a (100)], because the join pre-ranks
by combined footprint; applying rank-by-swap-descending afterwards yields
[b, a, c], since c's swap amount is 0. -/
theorem merge_then_rank_by_swap :
    (merge_process_data [⟨1, "a", 100, none⟩, ⟨2, "b", 5000, none⟩]
        [⟨3, "c", 0, 10000⟩] [] []).map (·.name) = ["c", "b", "a"] ∧
    (sort_unified_procs SortColumn.Swap
      (merge_process_data [⟨1, "a", 100, none⟩, ⟨2, "b", 5000, none⟩]
        [⟨3, "c", 0, 10000⟩] [] [])).map (·.name) = ["b", "a", "c"] := by
  constructor <;>
    simp [merge_process_data, insertSwapProcs, mergeGpuProcs, promoteHbm,
      gpuHbmNodes, List.mergeSort, List.splitInTwo, List.merge, totalMemKb,
      alInsert, alGet, gpuStep, gpuMergedRec, gpuOnlyRec, swapUnified,
      List.foldl, sort_unified_procs, swapLe]

/-! ## Claim C8: ranking contract -/

theorem pairwise_filter_of_key {α : Type} (le : α → α → Bool) (p : α → Bool)
    (hp : ∀ a b, p a = true → p b = true → le a b = true) (l : List α) :
    (l.filter p).Pairwise (fun a b => le a b = true) := by
  induction l with
  | nil => simp
  | cons a l ih =>
    by_cases ha : p a = true
    · rw [List.filter_cons_of_pos ha]
      exact List.Pairwise.cons (fun b hb => hp a b ha (List.of_mem_filter hb)) ih
    · rw [List.filter_cons_of_neg ha]
      exact ih

/-- Any stable sort leaves the subsequence of records with one fixed key
untouched; `List.mergeSort` (the denotation of Rust's stable `sort_by`)
realises this as a filter equation. -/
theorem mergeSort_filter_stable {α : Type} (le : α → α → Bool)
    (htrans : ∀ a b c, le a b = true → le b c = true → le a c = true)
    (htotal : ∀ a b, (le a b || le b a) = true)
    (p : α → Bool) (hp : ∀ a b, p a = true → p b = true → le a b = true)
    (l : List α) :
    (l.mergeSort le).filter p = l.filter p := by
  have hc : (l.filter p).Pairwise (fun a b => le a b = true) :=
    pairwise_filter_of_key le p hp l
  have hsub : (l.filter p).Sublist (l.mergeSort le) :=
    List.sublist_mergeSort htrans htotal hc (List.filter_sublist l)
  have hsub2 : (l.filter p).Sublist ((l.mergeSort le).filter p) := by
    have hstep := List.Sublist.filter p hsub
    rwa [List.filter_eq_self.mpr (fun a ha => List.of_mem_filter ha)] at hstep
  have hlen : ((l.mergeSort le).filter p).length = (l.filter p).length :=
    ((List.mergeSort_perm l le).filter p).length_eq
  exact (hsub2.eq_of_length hlen.symm).symm

/-- Rust's `Ord` on `Option<u32>` as a proposition: `None` is below every
value, two present values compare numerically. -/
def optNatLeP : Option Nat → Option Nat → Prop
  | none, _ => True
  | some _, none => False
  | some a, some b => a ≤ b

theorem optNatLeP_of {a b : Option Nat} (h : optNatLe a b = true) :
    optNatLeP a b := by
  cases a <;> cases b <;> simp_all [optNatLe, optNatLeP]

theorem optNatLe_trans (a b c : Option Nat) (hab : optNatLe a b = true)
    (hbc : optNatLe b c = true) : optNatLe a c = true := by
  cases a <;> cases b <;> cases c <;> simp_all [optNatLe] <;> omega

theorem optNatLe_total (a b : Option Nat) :
    (optNatLe a b || optNatLe b a) = true := by
  cases a <;> cases b <;> simp [optNatLe] <;> omega

theorem optNatLe_refl (a : Option Nat) : optNatLe a a = true := by
  cases a <;> simp [optNatLe]

theorem swapLe_trans (a b c : UnifiedProcessInfo) (hab : swapLe a b = true)
    (hbc : swapLe b c = true) : swapLe a c = true :=
  natLeBool_trans _ _ _ hbc hab

theorem swapLe_total (a b : UnifiedProcessInfo) :
    (swapLe a b || swapLe b a) = true :=
  natLeBool_total _ _

theorem gpuMemLe_trans (a b c : UnifiedProcessInfo) (hab : gpuMemLe a b = true)
    (hbc : gpuMemLe b c = true) : gpuMemLe a c = true :=
  natLeBool_trans _ _ _ hbc hab

theorem gpuMemLe_total (a b : UnifiedProcessInfo) :
    (gpuMemLe a b || gpuMemLe b a) = true :=
  natLeBool_total _ _

theorem nameLe_trans (a b c : UnifiedProcessInfo) (hab : nameLe a b = true)
    (hbc : nameLe b c = true) : nameLe a c = true :=
  decide_eq_true (le_trans (of_decide_eq_true hab) (of_decide_eq_true hbc))

theorem nameLe_total (a b : UnifiedProcessInfo) :
    (nameLe a b || nameLe b a) = true := by
  rcases le_total a.name b.name with h | h <;> simp [nameLe, h]

theorem numaLe_trans (a b c : UnifiedProcessInfo) (hab : numaLe a b = true)
    (hbc : numaLe b c = true) : numaLe a c = true :=
  optNatLe_trans _ _ _ hab hbc

theorem numaLe_total (a b : UnifiedProcessInfo) :
    (numaLe a b || numaLe b a) = true :=
  optNatLe_total _ _

/-- C8: for every record list, `sort_unified_procs` orders descending under
the swap key and under the accelerator-memory key (absent compares as zero),
ascending lexicographically under the name key, and ascending under the
topology-node key with absent values before all present ones; it permutes
its input, and records with exactly equal keys keep their relative input
order (stability, stated as a filter equation per key value). -/
theorem sort_unified_procs_spec (l : List UnifiedProcessInfo) :
    ((sort_unified_procs SortColumn.Swap l).Pairwise
        (fun a b => b.swap_kb ≤ a.swap_kb) ∧
      (sort_unified_procs SortColumn.Swap l).Perm l ∧
      ∀ k : Nat, (sort_unified_procs SortColumn.Swap l).filter
          (fun x => x.swap_kb == k) = l.filter (fun x => x.swap_kb == k)) ∧
    ((sort_unified_procs SortColumn.GpuMem l).Pairwise
        (fun a b => b.gpu_memory_kb.getD 0 ≤ a.gpu_memory_kb.getD 0) ∧
      (sort_unified_procs SortColumn.GpuMem l).Perm l ∧
      ∀ k : Nat, (sort_unified_procs SortColumn.GpuMem l).filter
          (fun x => x.gpu_memory_kb.getD 0 == k)
        = l.filter (fun x => x.gpu_memory_kb.getD 0 == k)) ∧
    ((sort_unified_procs SortColumn.Name l).Pairwise
        (fun a b => a.name ≤ b.name) ∧
      (sort_unified_procs SortColumn.Name l).Perm l ∧
      ∀ k : String, (sort_unified_procs SortColumn.Name l).filter
          (fun x => x.name == k) = l.filter (fun x => x.name == k)) ∧
    ((sort_unified_procs SortColumn.NumaNode l).Pairwise
        (fun a b => optNatLeP a.numa_node b.numa_node) ∧
      (sort_unified_procs SortColumn.NumaNode l).Perm l ∧
      ∀ k : Option Nat, (sort_unified_procs SortColumn.NumaNode l).filter
          (fun x => x.numa_node == k) = l.filter (fun x => x.numa_node == k)) := by
  refine ⟨⟨?_, List.mergeSort_perm _ _, ?_⟩, ⟨?_, List.mergeSort_perm _ _, ?_⟩,
    ⟨?_, List.mergeSort_perm _ _, ?_⟩, ⟨?_, List.mergeSort_perm _ _, ?_⟩⟩
  · exact (List.sorted_mergeSort swapLe_trans swapLe_total l).imp
      (fun h => of_decide_eq_true h)
  · intro k
    exact mergeSort_filter_stable swapLe swapLe_trans swapLe_total _
      (fun a b ha hb => by
        have ha' : a.swap_kb = k := by simpa using ha
        have hb' : b.swap_kb = k := by simpa using hb
        simp [swapLe, ha', hb']) l
  · exact (List.sorted_mergeSort gpuMemLe_trans gpuMemLe_total l).imp
      (fun h => of_decide_eq_true h)
  · intro k
    exact mergeSort_filter_stable gpuMemLe gpuMemLe_trans gpuMemLe_total _
      (fun a b ha hb => by
        have ha' : a.gpu_memory_kb.getD 0 = k := by simpa using ha
        have hb' : b.gpu_memory_kb.getD 0 = k := by simpa using hb
        simp [gpuMemLe, ha', hb']) l
  · exact (List.sorted_mergeSort nameLe_trans nameLe_total l).imp
      (fun h => of_decide_eq_true h)
  · intro k
    exact mergeSort_filter_stable nameLe nameLe_trans nameLe_total _
      (fun a b ha hb => by
        have ha' : a.name = k := by simpa using ha
        have hb' : b.name = k := by simpa using hb
        rw [nameLe, ha', hb']
        exact decide_eq_true le_rfl) l
  · exact (List.sorted_mergeSort numaLe_trans numaLe_total l).imp
      (fun h => optNatLeP_of h)
  · intro k
    exact mergeSort_filter_stable numaLe numaLe_trans numaLe_total _
      (fun a b ha hb => by
        have ha' : a.numa_node = k := by simpa using ha
        have hb' : b.numa_node = k := by simpa using hb
        rw [numaLe, ha', hb']
        exact optNatLe_refl k) l

end NvSwaptop
